import Mathlib

/-!
# Verification of the psychopy-apparatus communication layer

Shallow embedding of the pure core of `psychopy_apparatus`:

* `utils/protocol.py` — COBS framing codec, message build/parse with XOR
  checksum, LED payload encoders, force-start payload encoder;
* `hardware/apparatusDevice.py` — ACK/NACK correlation scan of the shared
  response list;
* `hardware/apparatus.py` — the force and reed measurement engines
  (response collection, counters, durations, start/stop transitions).

Bytes are modelled as `Nat` (values < 256 where it matters), byte strings as
`List Nat`, wall-clock timestamps as `ℚ`, and signed 16-bit force samples as
`ℤ`.  Python `while` loops are modelled with an explicit fuel argument equal
to an upper bound on the number of iterations (each iteration of the decode
loop consumes at least one input byte, so the input length is a bound);
this keeps every definition kernel-reducible.
-/

namespace Apparatus

/-! ## COBS framing codec (`protocol.py`, `cobs_encode` / `cobs_decode`)

`cobs_encode_go` mirrors the Python loop state: `output` is the buffer built
so far, `code_index` the position of the pending length marker inside
`output` (written with `List.set`, like `output[code_index] = code`), and
`code` the running block length + 1. -/

def cobs_encode_go : List Nat → List Nat → Nat → Nat → List Nat
  | [], output, code_index, code =>
      -- output[code_index] = code; output.append(0x00)
      output.set code_index code ++ [0]
  | b :: rest, output, code_index, code =>
      if b = 0 then
        -- output[code_index] = code; code_index = len(output); output.append(0); code = 1
        cobs_encode_go rest (output.set code_index code ++ [0]) output.length 1
      else
        let output1 := output ++ [b]
        let code1 := code + 1
        if code1 = 255 then
          cobs_encode_go rest (output1.set code_index code1 ++ [0]) output1.length 1
        else
          cobs_encode_go rest output1 code_index code1

/-- `cobs_encode(data)`: COBS-encode `data` and append the `0x00` delimiter.
The Python function starts from `output = [0]` (a placeholder for the first
code byte), `code_index = 0`, `code = 1`. -/
def cobs_encode (data : List Nat) : List Nat :=
  cobs_encode_go data [0] 0 1

/-- `cobs_decode(data)`: decode COBS data given without its trailing `0x00`
delimiter.  The Python `while i < len(data)` loop advances `i` by at least
one per iteration, so `data.length` bounds the iteration count; `fuel` is
that bound. -/
def cobs_decode_go : Nat → List Nat → List Nat → List Nat
  | 0, _, output => output
  | _ + 1, [], output => output
  | fuel + 1, code :: rest, output =>
      if code = 0 then output
      else
        -- the inner `for _ in range(code - 1)` copies up to `code - 1` bytes,
        -- returning early (with the partial output) if the input runs out
        let output1 := output ++ rest.take (code - 1)
        if rest.length < code - 1 then output1
        else
          let rest1 := rest.drop (code - 1)
          if code < 255 ∧ rest1 ≠ [] then cobs_decode_go fuel rest1 (output1 ++ [0])
          else cobs_decode_go fuel rest1 output1

def cobs_decode (data : List Nat) : List Nat :=
  cobs_decode_go data.length data []

example : cobs_encode [] = [1, 0] := by decide
example : cobs_encode [0] = [1, 1, 0] := by decide
example : cobs_encode [17, 0, 34] = [2, 17, 2, 34, 0] := by decide
example : cobs_decode [2, 17, 2, 34] = [17, 0, 34] := by decide
example : cobs_decode (cobs_encode [17, 0, 0, 5]).dropLast = [17, 0, 0, 5] := by decide

/-- Recursive reformulation of the encoder used for the round-trip proof:
`block` is the run of bytes already committed to the current COBS block
(the bytes of `output` past `code_index` in `cobs_encode_go`). -/
def cobsEnc : List Nat → List Nat → List Nat
  | [], block => (block.length + 1) :: block ++ [0]
  | b :: rest, block =>
      if b = 0 then (block.length + 1) :: block ++ cobsEnc rest []
      else if block.length + 2 = 255 then 255 :: (block ++ [b]) ++ cobsEnc rest []
      else cobsEnc rest (block ++ [b])

theorem set_len_append (l₁ l₂ : List Nat) (a b : Nat) :
    (l₁ ++ a :: l₂).set l₁.length b = l₁ ++ b :: l₂ := by
  induction l₁ with
  | nil => rfl
  | cons x xs ih => simp

theorem cobs_encode_go_zero (rest output : List Nat) (ci code : Nat) :
    cobs_encode_go (0 :: rest) output ci code =
      cobs_encode_go rest (output.set ci code ++ [0]) output.length 1 := by
  simp [cobs_encode_go]

theorem cobs_encode_go_full {b : Nat} (hb : b ≠ 0) (rest output : List Nat) (ci : Nat)
    {code : Nat} (hcode : code + 1 = 255) :
    cobs_encode_go (b :: rest) output ci code =
      cobs_encode_go rest ((output ++ [b]).set ci (code + 1) ++ [0]) (output ++ [b]).length 1 := by
  simp [cobs_encode_go, hb, hcode]

theorem cobs_encode_go_push {b : Nat} (hb : b ≠ 0) (rest output : List Nat) (ci : Nat)
    {code : Nat} (hcode : code + 1 ≠ 255) :
    cobs_encode_go (b :: rest) output ci code =
      cobs_encode_go rest (output ++ [b]) ci (code + 1) := by
  simp [cobs_encode_go, hb, hcode]

/-- The imperative encoder loop, started with output buffer
`done ++ placeholder :: block` and marker position `done.length`, produces
`done` followed by the block-structured encoding of the remaining input. -/
theorem cobs_encode_go_eq (data : List Nat) :
    ∀ done block : List Nat, ∀ a : Nat, block.length + 1 < 255 →
      cobs_encode_go data (done ++ a :: block) done.length (block.length + 1) =
        done ++ cobsEnc data block := by
  induction data with
  | nil =>
      intro done block a _
      simp [cobs_encode_go, cobsEnc, set_len_append]
  | cons b rest ih =>
      intro done block a hlt
      by_cases hb : b = 0
      · subst hb
        rw [cobs_encode_go_zero, set_len_append]
        have h1 : (done ++ a :: block).length = (done ++ (block.length + 1) :: block).length := by
          simp
        rw [h1]
        have key := ih (done ++ (block.length + 1) :: block) [] 0 (by norm_num)
        simp only [List.length_nil, List.append_nil] at key
        rw [key]
        simp [cobsEnc]
      · by_cases hfull : block.length + 2 = 255
        · rw [cobs_encode_go_full hb rest _ _ (by omega : block.length + 1 + 1 = 255)]
          have happ : (done ++ a :: block) ++ [b] = done ++ a :: (block ++ [b]) := by simp
          rw [happ, set_len_append]
          have h1 : (done ++ a :: (block ++ [b])).length =
              (done ++ (block.length + 1 + 1) :: (block ++ [b])).length := by simp
          rw [h1]
          have key := ih (done ++ (block.length + 1 + 1) :: (block ++ [b])) [] 0 (by norm_num)
          simp only [List.length_nil, List.append_nil] at key
          rw [key]
          simp [cobsEnc, hb, hfull]
        · rw [cobs_encode_go_push hb rest _ _ (by omega : block.length + 1 + 1 ≠ 255)]
          have happ : (done ++ a :: block) ++ [b] = done ++ a :: (block ++ [b]) := by simp
          rw [happ]
          have h2 : block.length + 1 + 1 = (block ++ [b]).length + 1 := by simp
          rw [h2]
          rw [ih done (block ++ [b]) a (by simp; omega)]
          simp [cobsEnc, hb, hfull]

theorem cobs_encode_eq_cobsEnc (data : List Nat) : cobs_encode data = cobsEnc data [] := by
  have := cobs_encode_go_eq data [] [] 0 (by norm_num)
  simpa [cobs_encode] using this

theorem cobs_decode_go_nil (fuel : Nat) (out : List Nat) :
    cobs_decode_go fuel [] out = out := by
  cases fuel <;> rfl

/-- Consuming one non-final block of size `< 255`: the decoder copies the
`bl` content bytes and re-inserts the elided zero. -/
theorem cobs_decode_go_step (fuel : Nat) (bl rest1 output : List Nat)
    (hlt : bl.length + 1 < 255) (h1 : rest1 ≠ []) :
    cobs_decode_go (fuel + 1) ((bl.length + 1) :: (bl ++ rest1)) output =
      cobs_decode_go fuel rest1 (output ++ bl ++ [0]) := by
  have htake : (bl ++ rest1).take (bl.length + 1 - 1) = bl := by
    simp [List.take_left]
  have hdrop : (bl ++ rest1).drop (bl.length + 1 - 1) = rest1 := by
    simp [List.drop_left]
  have hge : ¬ (bl ++ rest1).length < bl.length + 1 - 1 := by
    simp
  simp only [cobs_decode_go, htake, hdrop, if_neg hge]
  rw [if_neg (by omega : ¬ bl.length + 1 = 0)]
  rw [if_pos ⟨by omega, h1⟩]

/-- Consuming one maximal block (marker 255 = 254 content bytes): no zero is
re-inserted afterwards. -/
theorem cobs_decode_go_step255 (fuel : Nat) (bl rest1 output : List Nat)
    (hbl : bl.length = 254) :
    cobs_decode_go (fuel + 1) (255 :: (bl ++ rest1)) output =
      cobs_decode_go fuel rest1 (output ++ bl) := by
  have h255 : (255 : Nat) - 1 = bl.length := by omega
  have htake : (bl ++ rest1).take (255 - 1) = bl := by
    rw [h255]; exact List.take_left bl rest1
  have hdrop : (bl ++ rest1).drop (255 - 1) = rest1 := by
    rw [h255]; exact List.drop_left bl rest1
  have hge : ¬ (bl ++ rest1).length < 255 - 1 := by
    simp; omega
  simp only [cobs_decode_go, htake, hdrop, if_neg hge]
  rw [if_neg (by omega : ¬ (255 : Nat) = 0)]
  rw [if_neg (by simp : ¬ ((255 : Nat) < 255 ∧ rest1 ≠ []))]

/-- Consuming the final block of the stream (delimiter already stripped). -/
theorem cobs_decode_go_last (fuel : Nat) (bl output : List Nat)
    (hlt : bl.length + 1 < 255) :
    cobs_decode_go (fuel + 1) ((bl.length + 1) :: bl) output = output ++ bl := by
  have htake : bl.take (bl.length + 1 - 1) = bl := by
    simp
  have hdrop : bl.drop (bl.length + 1 - 1) = ([] : List Nat) := by
    simp
  have hge : ¬ bl.length < bl.length + 1 - 1 := by omega
  simp only [cobs_decode_go, htake, hdrop, if_neg hge]
  rw [if_neg (by omega : ¬ bl.length + 1 = 0)]
  rw [if_neg (by simp : ¬ (bl.length + 1 < 255 ∧ ([] : List Nat) ≠ []))]
  exact cobs_decode_go_nil fuel _

theorem cobsEnc_length_ge (data : List Nat) :
    ∀ block : List Nat, 2 ≤ (cobsEnc data block).length := by
  induction data with
  | nil => intro block; simp [cobsEnc]
  | cons b rest ih =>
      intro block
      by_cases hb : b = 0
      · subst hb
        have h := ih ([] : List Nat)
        simp [cobsEnc]
        omega
      · by_cases hfull : block.length + 2 = 255
        · have h := ih ([] : List Nat)
          simp [cobsEnc, hb, hfull]
          omega
        · simp only [cobsEnc, if_neg hb, if_neg hfull]
          exact ih (block ++ [b])

theorem dropLast_append_ne (l : List Nat) {X : List Nat} (hX : X ≠ []) :
    (l ++ X).dropLast = l ++ X.dropLast := by
  cases X with
  | nil => exact absurd rfl hX
  | cons x xs => exact List.dropLast_append_cons

/-- Core round-trip lemma: the decoder run on the block-structured encoding
(delimiter stripped) recovers the pending block content followed by the
remaining input. -/
theorem cobs_decode_go_cobsEnc (data : List Nat) :
    ∀ block out : List Nat, ∀ fuel : Nat, block.length ≤ 253 →
      (cobsEnc data block).dropLast.length ≤ fuel →
      cobs_decode_go fuel (cobsEnc data block).dropLast out = (out ++ block) ++ data := by
  induction data with
  | nil =>
      intro block out fuel hb hf
      have hdl : (cobsEnc [] block).dropLast = (block.length + 1) :: block := by
        show (((block.length + 1) :: block) ++ [0]).dropLast = _
        exact List.dropLast_concat
      rw [hdl] at hf ⊢
      obtain ⟨f, rfl⟩ : ∃ f, fuel = f + 1 := by
        cases fuel with
        | zero => simp at hf
        | succ f => exact ⟨f, rfl⟩
      rw [cobs_decode_go_last f block out (by omega)]
      simp
  | cons b rest ih =>
      intro block out fuel hb hf
      by_cases hzero : b = 0
      · subst hzero
        have hX := cobsEnc_length_ge rest []
        have hXne : cobsEnc rest [] ≠ [] := by
          intro h; rw [h] at hX; simp at hX
        have hdl : (cobsEnc (0 :: rest) block).dropLast =
            (block.length + 1) :: (block ++ (cobsEnc rest []).dropLast) := by
          show (((block.length + 1) :: block) ++ cobsEnc rest []).dropLast = _
          rw [dropLast_append_ne _ hXne]
          rfl
        rw [hdl] at hf ⊢
        obtain ⟨f, rfl⟩ : ∃ f, fuel = f + 1 := by
          cases fuel with
          | zero => simp at hf
          | succ f => exact ⟨f, rfl⟩
        have hdXne : (cobsEnc rest []).dropLast ≠ [] := by
          intro h
          have := congrArg List.length h
          simp at this
          omega
        rw [cobs_decode_go_step f block _ out (by omega) hdXne]
        have hrec := ih [] (out ++ block ++ [0]) f (by norm_num)
          (by simp at hf ⊢; omega)
        simp only [List.append_nil] at hrec
        rw [hrec]
        simp
      · by_cases hfull : block.length + 2 = 255
        · have hX := cobsEnc_length_ge rest []
          have hXne : cobsEnc rest [] ≠ [] := by
            intro h; rw [h] at hX; simp at hX
          have henc : cobsEnc (b :: rest) block = 255 :: (block ++ [b]) ++ cobsEnc rest [] := by
            simp [cobsEnc, hzero, hfull]
          have hdl : (cobsEnc (b :: rest) block).dropLast =
              255 :: ((block ++ [b]) ++ (cobsEnc rest []).dropLast) := by
            rw [henc]
            show ((255 :: (block ++ [b])) ++ cobsEnc rest []).dropLast = _
            rw [dropLast_append_ne _ hXne]
            rfl
          rw [hdl] at hf ⊢
          obtain ⟨f, rfl⟩ : ∃ f, fuel = f + 1 := by
            cases fuel with
            | zero => simp at hf
            | succ f => exact ⟨f, rfl⟩
          have hdXne : (cobsEnc rest []).dropLast ≠ [] := by
            intro h
            have := congrArg List.length h
            simp at this
            omega
          rw [cobs_decode_go_step255 f (block ++ [b]) _ out (by simp; omega)]
          have hrec := ih [] (out ++ (block ++ [b])) f (by norm_num)
            (by simp at hf ⊢; omega)
          simp only [List.append_nil] at hrec
          rw [hrec]
          simp
        · have henc : cobsEnc (b :: rest) block = cobsEnc rest (block ++ [b]) := by
            simp [cobsEnc, hzero, hfull]
          rw [henc] at hf ⊢
          have hrec := ih (block ++ [b]) out fuel (by simp; omega) hf
          rw [hrec]
          simp

/-- **C1.** For every byte sequence `x` — including the empty sequence and
sequences containing the delimiter value `0x00` — `cobs_decode` applied to
`cobs_encode x` with its trailing `0x00` delimiter removed returns exactly
`x`. -/
theorem cobs_decode_cobs_encode_roundtrip (x : List Nat) (hx : ∀ b ∈ x, b < 256) :
    cobs_decode (cobs_encode x).dropLast = x := by
  rw [cobs_encode_eq_cobsEnc, cobs_decode]
  have := cobs_decode_go_cobsEnc x [] []
    ((cobsEnc x []).dropLast.length) (by norm_num) (le_refl _)
  simpa using this

/-- Witness for C1 at a concrete byte sequence containing the delimiter. -/
theorem cobs_decode_cobs_encode_roundtrip_witness :
    (∀ b ∈ [0, 1, 255, 0, 7], b < 256) ∧
      cobs_decode (cobs_encode [0, 1, 255, 0, 7]).dropLast = [0, 1, 255, 0, 7] :=
  ⟨by decide, cobs_decode_cobs_encode_roundtrip [0, 1, 255, 0, 7] (by decide)⟩

/-! ## Message codec (`protocol.py`, `build_message` / `parse_message`)

Header layout `<BIHBBBB` (11 bytes, little-endian): `msg_type, seq(u32),
payload_len(u16), src, dst, flags, checksum`. -/

def ADDR_PC : Nat := 1
def ADDR_SERVER : Nat := 2
def ADDR_CLIENT : Nat := 3
def MSG_ACK : Nat := 128
def MSG_NACK : Nat := 129
def DATA_REED : Nat := 145
def DATA_FORCE : Nat := 144
def FLAG_ACK_REQUIRED : Nat := 1
def HEADER_SIZE : Nat := 11

/-- `struct.pack` of a `u32` little-endian. -/
def u32le (v : Nat) : List Nat :=
  [v % 256, v / 256 % 256, v / 65536 % 256, v / 16777216 % 256]

/-- `struct.pack` of a `u16` little-endian. -/
def u16le (v : Nat) : List Nat := [v % 256, v / 256 % 256]

/-- `calculate_checksum(header_bytes, payload)`: running XOR over the header
bytes then the payload bytes. -/
def calculate_checksum (header_bytes payload : List Nat) : Nat :=
  payload.foldl Nat.xor (header_bytes.foldl Nat.xor 0)

/-- The header without its checksum byte (`struct.pack('<BIHBBB', ...)` in
`build_message`); `src` is always `ADDR_PC`. -/
def header_temp (msg_type seq payload_len dst flags : Nat) : List Nat :=
  [msg_type] ++ u32le seq ++ u16le payload_len ++ [ADDR_PC, dst, flags]

/-- `build_message`: header-without-checksum, then the XOR checksum byte,
then the payload. -/
def build_message (msg_type seq : Nat) (payload : List Nat) (dst flags : Nat) : List Nat :=
  let ht := header_temp msg_type seq payload.length dst flags
  let checksum := calculate_checksum ht payload
  (ht ++ [checksum]) ++ payload

structure Header where
  msg_type : Nat
  seq : Nat
  payload_len : Nat
  src : Nat
  dst : Nat
  flags : Nat
  checksum : Nat
deriving DecidableEq

/-- `parse_message`: `None` on short input or checksum mismatch, else the
header fields and the payload slice sized by `payload_len`. -/
def parse_message (data : List Nat) : Option (Header × List Nat) :=
  if data.length < HEADER_SIZE then none
  else
    let msg_type := data.getD 0 0
    let seq := data.getD 1 0 + 256 * data.getD 2 0 + 65536 * data.getD 3 0 +
      16777216 * data.getD 4 0
    let payload_len := data.getD 5 0 + 256 * data.getD 6 0
    let src := data.getD 7 0
    let dst := data.getD 8 0
    let flags := data.getD 9 0
    let checksum := data.getD 10 0
    let payload := (data.drop HEADER_SIZE).take payload_len
    let expected := calculate_checksum (data.take (HEADER_SIZE - 1)) payload
    if checksum ≠ expected then none
    else some ({ msg_type := msg_type, seq := seq, payload_len := payload_len,
                 src := src, dst := dst, flags := flags, checksum := checksum }, payload)

example :
    parse_message (build_message 16 3 [1, 2] 3 1) =
      some ({ msg_type := 16, seq := 3, payload_len := 2, src := 1, dst := 3, flags := 1,
              checksum := calculate_checksum (header_temp 16 3 2 3 1) [1, 2] }, [1, 2]) := by
  decide

/-! XOR bookkeeping for the checksum arguments. -/

theorem foldl_xor_init (l : List Nat) : ∀ a : Nat, l.foldl Nat.xor a = a ^^^ l.foldl Nat.xor 0 := by
  induction l with
  | nil => intro a; simp [Nat.xor_zero]
  | cons x xs ih =>
      intro a
      show xs.foldl Nat.xor (a ^^^ x) = a ^^^ xs.foldl Nat.xor (0 ^^^ x)
      rw [ih (a ^^^ x), ih (0 ^^^ x), Nat.zero_xor, Nat.xor_assoc]

theorem calculate_checksum_eq (header_bytes payload : List Nat) :
    calculate_checksum header_bytes payload =
      header_bytes.foldl Nat.xor 0 ^^^ payload.foldl Nat.xor 0 := by
  unfold calculate_checksum
  rw [foldl_xor_init payload]

theorem xor_left_comm (a b c : Nat) : a ^^^ (b ^^^ c) = b ^^^ (a ^^^ c) := by
  rw [← Nat.xor_assoc, Nat.xor_comm a b, Nat.xor_assoc]

theorem foldl_xor_set (l : List Nat) :
    ∀ i b : Nat, i < l.length →
      (l.set i b).foldl Nat.xor 0 = l.foldl Nat.xor 0 ^^^ l.getD i 0 ^^^ b := by
  induction l with
  | nil => intro i b h; simp at h
  | cons x xs ih =>
      intro i b h
      cases i with
      | zero =>
          show xs.foldl Nat.xor (0 ^^^ b) = xs.foldl Nat.xor (0 ^^^ x) ^^^ x ^^^ b
          rw [foldl_xor_init xs (0 ^^^ b), foldl_xor_init xs (0 ^^^ x)]
          simp [Nat.xor_assoc, Nat.xor_comm, xor_left_comm, Nat.xor_self,
            Nat.xor_cancel_left]
      | succ i =>
          have hi : i < xs.length := by simpa using h
          show (xs.set i b).foldl Nat.xor (0 ^^^ x) = xs.foldl Nat.xor (0 ^^^ x) ^^^
            (x :: xs).getD (i + 1) 0 ^^^ b
          rw [List.getD_cons_succ, foldl_xor_init (xs.set i b), foldl_xor_init xs, ih i b hi]
          simp [Nat.xor_assoc]

theorem xor_ne_of_ne {c d : Nat} (h : d ≠ 0) : c ^^^ d ≠ c := by
  intro hc
  apply h
  calc d = c ^^^ (c ^^^ d) := (Nat.xor_cancel_left c d).symm
    _ = c ^^^ c := by rw [hc]
    _ = 0 := Nat.xor_self c

theorem xor_ne_zero_of_ne {a b : Nat} (h : a ≠ b) : a ^^^ b ≠ 0 := by
  intro hab
  apply h
  calc a = a ^^^ 0 := (Nat.xor_zero a).symm
    _ = a ^^^ (a ^^^ b) := by rw [hab]
    _ = b := Nat.xor_cancel_left a b

theorem header_temp_length (msg_type seq payload_len dst flags : Nat) :
    (header_temp msg_type seq payload_len dst flags).length = 10 := by
  simp [header_temp, u32le, u16le]

theorem getD_set_ne (l : List Nat) {i j : Nat} (h : i ≠ j) (b : Nat) :
    (l.set i b).getD j 0 = l.getD j 0 := by
  rw [List.getD_eq_getElem?_getD, List.getElem?_set_ne h, ← List.getD_eq_getElem?_getD]

/-- Evaluation of `parse_message` on an input split as a 10-byte header,
one checksum byte, and a tail. -/
theorem parse_message_shape (h10 : List Nat) (cc : Nat) (q : List Nat)
    (hlen : h10.length = 10) :
    parse_message ((h10 ++ [cc]) ++ q) =
      (if cc ≠ calculate_checksum h10 (q.take (h10.getD 5 0 + 256 * h10.getD 6 0)) then none
       else some ({ msg_type := h10.getD 0 0,
                    seq := h10.getD 1 0 + 256 * h10.getD 2 0 + 65536 * h10.getD 3 0 +
                      16777216 * h10.getD 4 0,
                    payload_len := h10.getD 5 0 + 256 * h10.getD 6 0,
                    src := h10.getD 7 0, dst := h10.getD 8 0, flags := h10.getD 9 0,
                    checksum := cc }, q.take (h10.getD 5 0 + 256 * h10.getD 6 0))) := by
  have hlen1 : (h10 ++ [cc]).length = 11 := by simp [hlen]
  have hnotshort : ¬ ((h10 ++ [cc]) ++ q).length < HEADER_SIZE := by
    simp [HEADER_SIZE, hlen]
    omega
  have hgd : ∀ j, j < 10 → ((h10 ++ [cc]) ++ q).getD j 0 = h10.getD j 0 := by
    intro j hj
    rw [List.getD_append _ _ _ _ (by omega), List.getD_append _ _ _ _ (by omega)]
  have hgd10 : ((h10 ++ [cc]) ++ q).getD 10 0 = cc := by
    rw [List.getD_append _ _ _ _ (by omega), List.getD_append_right _ _ _ _ (by omega)]
    simp [hlen]
  have hdrop : ((h10 ++ [cc]) ++ q).drop HEADER_SIZE = q := by
    show ((h10 ++ [cc]) ++ q).drop 11 = q
    rw [← hlen1]
    exact List.drop_left _ _
  have htake : ((h10 ++ [cc]) ++ q).take (HEADER_SIZE - 1) = h10 := by
    show ((h10 ++ [cc]) ++ q).take 10 = h10
    rw [List.append_assoc, ← hlen]
    exact List.take_left _ _
  rw [parse_message, if_neg hnotshort]
  rw [hgd 0 (by omega), hgd 1 (by omega), hgd 2 (by omega), hgd 3 (by omega),
      hgd 4 (by omega), hgd 5 (by omega), hgd 6 (by omega), hgd 7 (by omega),
      hgd 8 (by omega), hgd 9 (by omega), hgd10, hdrop, htake]

theorem header_temp_getD (mt seq pl dst flags : Nat) :
    (header_temp mt seq pl dst flags).getD 0 0 = mt ∧
    (header_temp mt seq pl dst flags).getD 1 0 = seq % 256 ∧
    (header_temp mt seq pl dst flags).getD 2 0 = seq / 256 % 256 ∧
    (header_temp mt seq pl dst flags).getD 3 0 = seq / 65536 % 256 ∧
    (header_temp mt seq pl dst flags).getD 4 0 = seq / 16777216 % 256 ∧
    (header_temp mt seq pl dst flags).getD 5 0 = pl % 256 ∧
    (header_temp mt seq pl dst flags).getD 6 0 = pl / 256 % 256 ∧
    (header_temp mt seq pl dst flags).getD 7 0 = ADDR_PC ∧
    (header_temp mt seq pl dst flags).getD 8 0 = dst ∧
    (header_temp mt seq pl dst flags).getD 9 0 = flags := by
  simp [header_temp, u32le, u16le]

/-- `parse(build(...))` recovers the original fields: used for the
confirmable half of C2. -/
theorem parse_build_roundtrip (mt seq dst flags : Nat) (p : List Nat)
    (hseq : seq < 4294967296) (hlen : p.length < 65536) :
    parse_message (build_message mt seq p dst flags) =
      some ({ msg_type := mt, seq := seq, payload_len := p.length, src := ADDR_PC,
              dst := dst, flags := flags,
              checksum := calculate_checksum (header_temp mt seq p.length dst flags) p }, p) := by
  have hdata : build_message mt seq p dst flags =
      (header_temp mt seq p.length dst flags ++
        [calculate_checksum (header_temp mt seq p.length dst flags) p]) ++ p := rfl
  rw [hdata, parse_message_shape _ _ _ (header_temp_length mt seq p.length dst flags)]
  obtain ⟨g0, g1, g2, g3, g4, g5, g6, g7, g8, g9⟩ :=
    header_temp_getD mt seq p.length dst flags
  rw [g0, g1, g2, g3, g4, g5, g6, g7, g8, g9]
  have hL : p.length % 256 + 256 * (p.length / 256 % 256) = p.length := by omega
  rw [hL, List.take_length, if_neg (by simp)]
  have hseqeq : seq % 256 + 256 * (seq / 256 % 256) + 65536 * (seq / 65536 % 256) +
      16777216 * (seq / 16777216 % 256) = seq := by omega
  rw [hseqeq]

/-- Changing any single byte of a built message outside the two
`payload_len` bytes (indices 5 and 6) makes `parse_message` return `none`. -/
theorem parse_message_flip (mt seq dst flags : Nat) (p : List Nat)
    (hlen : p.length < 65536) (i b2 : Nat)
    (hi : i < (build_message mt seq p dst flags).length)
    (h5 : i ≠ 5) (h6 : i ≠ 6)
    (hb : b2 ≠ (build_message mt seq p dst flags).getD i 0) :
    parse_message ((build_message mt seq p dst flags).set i b2) = none := by
  have hht := header_temp_length mt seq p.length dst flags
  have hdata : build_message mt seq p dst flags =
      (header_temp mt seq p.length dst flags ++
        [calculate_checksum (header_temp mt seq p.length dst flags) p]) ++ p := rfl
  obtain ⟨g0, g1, g2, g3, g4, g5, g6, g7, g8, g9⟩ :=
    header_temp_getD mt seq p.length dst flags
  rw [hdata] at hi hb ⊢
  have hlen11 : (header_temp mt seq p.length dst flags ++
      [calculate_checksum (header_temp mt seq p.length dst flags) p]).length = 11 := by
    simp [hht]
  rcases lt_trichotomy i 10 with hlt | heq | hgt
  · -- a header byte other than the checksum and the length field
    have hset : ((header_temp mt seq p.length dst flags ++
        [calculate_checksum (header_temp mt seq p.length dst flags) p]) ++ p).set i b2 =
        ((header_temp mt seq p.length dst flags).set i b2 ++
          [calculate_checksum (header_temp mt seq p.length dst flags) p]) ++ p := by
      rw [List.set_append, if_pos (by omega)]
      rw [List.set_append, if_pos (by omega)]
    rw [hset, parse_message_shape _ _ _ (by simp [hht])]
    rw [getD_set_ne _ h5, getD_set_ne _ h6, g5, g6]
    have hL : p.length % 256 + 256 * (p.length / 256 % 256) = p.length := by omega
    rw [hL, List.take_length]
    have hbi : b2 ≠ (header_temp mt seq p.length dst flags).getD i 0 := by
      rw [List.getD_append _ _ _ _ (by omega), List.getD_append _ _ _ _ (by omega)] at hb
      exact hb
    have hcs : calculate_checksum ((header_temp mt seq p.length dst flags).set i b2) p =
        calculate_checksum (header_temp mt seq p.length dst flags) p ^^^
          ((header_temp mt seq p.length dst flags).getD i 0 ^^^ b2) := by
      rw [calculate_checksum_eq, calculate_checksum_eq, foldl_xor_set _ _ _ (by omega)]
      simp [Nat.xor_assoc, Nat.xor_comm, xor_left_comm]
    rw [hcs]
    rw [if_pos (Ne.symm (xor_ne_of_ne (xor_ne_zero_of_ne (Ne.symm hbi))))]
  · -- the checksum byte itself
    subst heq
    have hset : ((header_temp mt seq p.length dst flags ++
        [calculate_checksum (header_temp mt seq p.length dst flags) p]) ++ p).set 10 b2 =
        (header_temp mt seq p.length dst flags ++ [b2]) ++ p := by
      rw [List.set_append, if_pos (by omega)]
      rw [List.set_append, if_neg (by omega)]
      rw [hht]
      norm_num
    rw [hset, parse_message_shape _ _ _ hht]
    rw [g5, g6]
    have hL : p.length % 256 + 256 * (p.length / 256 % 256) = p.length := by omega
    rw [hL, List.take_length]
    have hbi : b2 ≠ calculate_checksum (header_temp mt seq p.length dst flags) p := by
      rw [List.getD_append _ _ _ _ (by omega),
          List.getD_append_right _ _ _ _ (by omega), hht] at hb
      simpa using hb
    rw [if_pos hbi]
  · -- a payload byte
    have hset : ((header_temp mt seq p.length dst flags ++
        [calculate_checksum (header_temp mt seq p.length dst flags) p]) ++ p).set i b2 =
        (header_temp mt seq p.length dst flags ++
          [calculate_checksum (header_temp mt seq p.length dst flags) p]) ++
          p.set (i - 11) b2 := by
      rw [List.set_append, if_neg (by omega)]
      rw [hlen11]
    rw [hset, parse_message_shape _ _ _ hht]
    rw [g5, g6]
    have hL : p.length % 256 + 256 * (p.length / 256 % 256) = p.length := by omega
    rw [hL]
    have htk : (p.set (i - 11) b2).take p.length = p.set (i - 11) b2 := by
      conv_lhs => rw [show p.length = (p.set (i - 11) b2).length from
        (List.length_set p (i - 11) b2).symm]
      exact List.take_length _
    rw [htk]
    have hip : i - 11 < p.length := by
      rw [List.length_append, hlen11] at hi
      omega
    have hbi : b2 ≠ p.getD (i - 11) 0 := by
      rw [List.getD_append_right _ _ _ _ (by omega), hlen11] at hb
      exact hb
    have hcs : calculate_checksum (header_temp mt seq p.length dst flags)
        (p.set (i - 11) b2) =
        calculate_checksum (header_temp mt seq p.length dst flags) p ^^^
          (p.getD (i - 11) 0 ^^^ b2) := by
      rw [calculate_checksum_eq, calculate_checksum_eq, foldl_xor_set _ _ _ hip]
      simp [Nat.xor_assoc, Nat.xor_comm, xor_left_comm]
    rw [hcs]
    rw [if_pos (Ne.symm (xor_ne_of_ne (xor_ne_zero_of_ne (Ne.symm hbi))))]

/-- **C2 (counterexample).** The claim "flipping any single byte of a built
message causes `parse_message` to return no result" is false: changing the
low `payload_len` byte (index 5) of the message built from
`(msg_type 16, seq 0, payload [1], dst 3, flags 1)` from `1` to `0` shortens
the parsed payload slice to `[]`, and the XOR of the two changes cancels, so
the checksum still matches and `parse_message` succeeds. -/
theorem parse_message_flip_undetected :
    (0 : Nat) ≠ (build_message 16 0 [1] 3 1).getD 5 0 ∧
      parse_message ((build_message 16 0 [1] 3 1).set 5 0) ≠ none := by
  decide

/-- **C2 (amended).** For every valid tuple (`seq` a u32, payload shorter
than 2^16, byte-sized scalar fields), `parse_message (build_message …)`
returns the original header fields unchanged — with `src` the fixed host
address 1 — together with the original payload; and changing any single byte
of the built message to a different value, at any position other than the
two `payload_len` bytes (indices 5 and 6), makes `parse_message` return
`none`.  (A change inside the `payload_len` field can go undetected, see
`parse_message_flip_undetected`.) -/
theorem parse_build_message_spec (mt seq dst flags : Nat) (p : List Nat)
    (_hmt : mt < 256) (hseq : seq < 4294967296) (hlen : p.length < 65536)
    (_hdst : dst < 256) (_hflags : flags < 256) (_hp : ∀ b ∈ p, b < 256) :
    parse_message (build_message mt seq p dst flags) =
      some ({ msg_type := mt, seq := seq, payload_len := p.length, src := 1,
              dst := dst, flags := flags,
              checksum := calculate_checksum (header_temp mt seq p.length dst flags) p }, p) ∧
    ∀ i b2, i < (build_message mt seq p dst flags).length → i ≠ 5 → i ≠ 6 →
      b2 ≠ (build_message mt seq p dst flags).getD i 0 →
      parse_message ((build_message mt seq p dst flags).set i b2) = none := by
  constructor
  · exact parse_build_roundtrip mt seq dst flags p hseq hlen
  · intro i b2 hi h5 h6 hb
    exact parse_message_flip mt seq dst flags p hlen i b2 hi h5 h6 hb

/-- Witness for C2 at a concrete valid tuple, flipping header byte 0. -/
theorem parse_build_message_spec_witness :
    parse_message (build_message 16 3 [1, 2] 3 1) =
      some ({ msg_type := 16, seq := 3, payload_len := 2, src := 1, dst := 3, flags := 1,
              checksum := calculate_checksum (header_temp 16 3 2 3 1) [1, 2] }, [1, 2]) ∧
    parse_message ((build_message 16 3 [1, 2] 3 1).set 0 7) = none := by
  have h := parse_build_message_spec 16 3 3 1 [1, 2] (by decide) (by decide) (by decide)
    (by decide) (by decide) (by decide)
  exact ⟨h.1, h.2 0 7 (by decide) (by decide) (by decide) (by decide)⟩

/-! ## LED payload encoders (`protocol.py`)

`encode_led_payload_auto` receives, at runtime, either a single `(r, g, b)`
tuple or a list of such tuples; the Python code distinguishes the two with
`isinstance` checks, modelled here by a sum type.  Failure paths
(`raise ValueError`, and the `colors[0]` `IndexError` on an empty color
list) are modelled as `none`. -/

def RGB : Type := Nat × Nat × Nat

instance : DecidableEq RGB := by
  unfold RGB
  infer_instance

/-- Format A: `count(u8) + holes[count] + r + g + b`. -/
def encode_led_payload_format_a (holes : List Nat) (r g b : Nat) : List Nat :=
  [holes.length] ++ holes ++ [r, g, b]

/-- Format B: `count(u8) + [hole, r, g, b] × count`; raises (`none`) when the
two lists have different lengths. -/
def encode_led_payload_format_b (holes : List Nat) (colors : List RGB) :
    Option (List Nat) :=
  if holes.length ≠ colors.length then none
  else some ([holes.length] ++
    (holes.zip colors).flatMap (fun hc => [hc.1, hc.2.1, hc.2.2.1, hc.2.2.2]))

/-- The `colors` argument of `encode_led_payload_auto`: a single shared
tuple, or a per-hole list of tuples. -/
inductive LedColors where
  | single : RGB → LedColors
  | perHole : List RGB → LedColors

/-- `encode_led_payload_auto`: Format A for a single shared color or an
all-equal color list, Format B otherwise.  An empty `holes` list raises
(`none`); an empty per-hole color list hits `colors[0]` and raises
(`none`). -/
def encode_led_payload_auto (holes : List Nat) (colors : LedColors) :
    Option (List Nat) :=
  if holes = [] then none
  else
    match colors with
    | .single c => some (encode_led_payload_format_a holes c.1 c.2.1 c.2.2)
    | .perHole cs =>
        match cs with
        | [] => none
        | c0 :: rest =>
            if (c0 :: rest).all (fun c => c = c0) then
              some (encode_led_payload_format_a holes c0.1 c0.2.1 c0.2.2)
            else encode_led_payload_format_b holes (c0 :: rest)

example :
    encode_led_payload_auto [3, 7, 12] (.single (10, 20, 30)) =
      some [3, 3, 7, 12, 10, 20, 30] := by
  decide

example :
    encode_led_payload_auto [3, 7, 12] (.perHole [(10, 20, 30), (10, 20, 30), (40, 50, 60)]) =
      some [3, 3, 10, 20, 30, 7, 10, 20, 30, 12, 40, 50, 60] := by
  decide

/-- **C6.** The auto-format LED encoder picks Format A exactly for a single
shared color or a per-hole color list whose elements are all equal (full
equality), and Format B otherwise; with the two concrete byte layouts from
the spec. -/
theorem encode_led_payload_auto_format_choice :
    (∀ (holes : List Nat) (c : RGB), holes ≠ [] →
      encode_led_payload_auto holes (.single c) =
        some (encode_led_payload_format_a holes c.1 c.2.1 c.2.2)) ∧
    (∀ (holes : List Nat) (c0 : RGB) (cs : List RGB), holes ≠ [] →
      (∀ c ∈ c0 :: cs, c = c0) →
      encode_led_payload_auto holes (.perHole (c0 :: cs)) =
        some (encode_led_payload_format_a holes c0.1 c0.2.1 c0.2.2)) ∧
    (∀ (holes : List Nat) (c0 : RGB) (cs : List RGB), holes ≠ [] →
      ¬ (∀ c ∈ c0 :: cs, c = c0) →
      encode_led_payload_auto holes (.perHole (c0 :: cs)) =
        encode_led_payload_format_b holes (c0 :: cs)) ∧
    encode_led_payload_auto [3, 7, 12] (.single (10, 20, 30)) =
      some [3, 3, 7, 12, 10, 20, 30] ∧
    encode_led_payload_auto [3, 7, 12] (.perHole [(10, 20, 30), (10, 20, 30), (40, 50, 60)]) =
      some [3, 3, 10, 20, 30, 7, 10, 20, 30, 12, 40, 50, 60] := by
  refine ⟨?_, ?_, ?_, by decide, by decide⟩
  · intro holes c hne
    simp [encode_led_payload_auto, hne]
  · intro holes c0 cs hne hall
    have : (c0 :: cs).all (fun c => c = c0) = true := by
      simp only [List.all_eq_true, decide_eq_true_eq]
      exact hall
    simp [encode_led_payload_auto, hne, this]
  · intro holes c0 cs hne hall
    have : ¬ ((c0 :: cs).all (fun c => c = c0) = true) := by
      simp only [List.all_eq_true, decide_eq_true_eq]
      exact hall
    simp [encode_led_payload_auto, hne, this]

/-- Witness for C6 instantiating the three universally quantified parts. -/
theorem encode_led_payload_auto_format_choice_witness :
    encode_led_payload_auto [5] (.single (1, 2, 3)) =
      some (encode_led_payload_format_a [5] 1 2 3) ∧
    encode_led_payload_auto [5] (.perHole [(1, 2, 3), (1, 2, 3)]) =
      some (encode_led_payload_format_a [5] 1 2 3) ∧
    encode_led_payload_auto [5] (.perHole [(1, 2, 3), (4, 5, 6)]) =
      encode_led_payload_format_b [5] [(1, 2, 3), (4, 5, 6)] := by
  have h := encode_led_payload_auto_format_choice
  exact ⟨h.1 [5] (1, 2, 3) (by decide),
         h.2.1 [5] (1, 2, 3) [(1, 2, 3)] (by decide) (by decide),
         h.2.2.1 [5] (1, 2, 3) [(4, 5, 6)] (by decide) (by decide)⟩

/-- **C8 (counterexample).** A per-hole color list whose length differs from
the hole list is NOT always rejected: when all its colors are equal, the
auto encoder silently falls back to Format A and produces payload bytes. -/
theorem encode_led_payload_auto_mismatch_unchecked :
    ([(10, 20, 30), (10, 20, 30), (10, 20, 30)] : List RGB).length ≠
        ([3, 7] : List Nat).length ∧
      encode_led_payload_auto [3, 7]
        (.perHole [(10, 20, 30), (10, 20, 30), (10, 20, 30)]) =
          some [2, 3, 7, 10, 20, 30] := by
  constructor
  · decide
  · decide

/-- **C8 (amended).** A mismatched per-hole color list is rejected before
any byte is produced exactly on the Format B path, i.e. when its colors are
not all equal; `encode_led_payload_format_b` itself always rejects a length
mismatch.  (An all-equal mismatched list instead takes the Format A path
with no length check, see `encode_led_payload_auto_mismatch_unchecked`.) -/
theorem encode_led_payload_mismatch_rejected :
    (∀ (holes : List Nat) (cs : List RGB), holes.length ≠ cs.length →
      encode_led_payload_format_b holes cs = none) ∧
    (∀ (holes : List Nat) (c0 : RGB) (cs : List RGB), holes ≠ [] →
      ¬ (∀ c ∈ c0 :: cs, c = c0) → holes.length ≠ (c0 :: cs).length →
      encode_led_payload_auto holes (.perHole (c0 :: cs)) = none) := by
  constructor
  · intro holes cs hmm
    simp [encode_led_payload_format_b, hmm]
  · intro holes c0 cs hne hall hmm
    have hb : ¬ ((c0 :: cs).all (fun c => c = c0) = true) := by
      simp only [List.all_eq_true, decide_eq_true_eq]
      exact hall
    simp [encode_led_payload_auto, hne, hb, encode_led_payload_format_b]
    simpa using hmm

/-- Witness for C8 (amended) at concrete mismatched lists. -/
theorem encode_led_payload_mismatch_rejected_witness :
    encode_led_payload_format_b [3, 7] [(1, 2, 3)] = none ∧
    encode_led_payload_auto [3] (.perHole [(1, 2, 3), (4, 5, 6)]) = none := by
  have h := encode_led_payload_mismatch_rejected
  exact ⟨h.1 [3, 7] [(1, 2, 3)] (by decide),
         h.2 [3] (1, 2, 3) [(4, 5, 6)] (by decide) (by decide) (by decide)⟩

/-! ## Force-start payload encoder (`protocol.py`, `encode_force_start_payload`)

Python strings are modelled as `List Char` so that `.lower()` (mapping
`Char.toLower` over the characters) stays kernel-reducible; the sampling
rate is modelled as `ℚ`, `int()` as truncation toward zero, and `raise` /
`struct.error` as `none`. -/

/-- Python `str.lower()`. -/
def py_str_lower (s : List Char) : List Char := s.map Char.toLower

/-- Python `int()`: truncation toward zero. -/
def py_int (q : ℚ) : ℤ := if q < 0 then -⌊-q⌋ else ⌊q⌋

/-- The `device_map` lookup after lowercasing; `none` models the
`ValueError` for unknown selectors. -/
def device_selector (device : List Char) : Option Nat :=
  let device_lower := py_str_lower device
  if device_lower = "white".data then some 0
  else if device_lower = "blue".data then some 1
  else if device_lower = "both".data then some 2
  else none

/-- `encode_force_start_payload(rate_hz, device)`: period `int(1e6 / rate)`
as u32 LE, then the device selector byte.  `none` models the `ValueError`
for an unknown device and the `struct.error` for a period outside the u32
range. -/
def encode_force_start_payload (rate_hz : ℚ) (device : List Char) :
    Option (List Nat) :=
  let period_us : ℤ := py_int (1000000 / rate_hz)
  match device_selector device with
  | none => none
  | some sel =>
      if period_us < 0 ∨ 4294967296 ≤ period_us then none
      else some (u32le period_us.toNat ++ [sel])

theorem py_int_nonneg {q : ℚ} (h : 0 ≤ q) : py_int q = ⌊q⌋ := by
  rw [py_int, if_neg (not_lt.mpr h)]

theorem encode_force_start_payload_none (rate : ℚ) (dev : List Char)
    (hsel : device_selector dev = none) :
    encode_force_start_payload rate dev = none := by
  rw [encode_force_start_payload, hsel]

theorem encode_force_start_payload_some (rate : ℚ) (dev : List Char) (sel : Nat)
    (hsel : device_selector dev = some sel) :
    encode_force_start_payload rate dev =
      if py_int (1000000 / rate) < 0 ∨ 4294967296 ≤ py_int (1000000 / rate) then none
      else some (u32le (py_int (1000000 / rate)).toNat ++ [sel]) := by
  rw [encode_force_start_payload, hsel]

/-- For a positive integer rate, the truncated microsecond period is the
natural-number quotient `1000000 / n`. -/
theorem py_int_period (n : ℕ) (hn : 0 < n) :
    py_int (1000000 / (n : ℚ)) = Nat.cast (1000000 / n) := by
  have hq : (0 : ℚ) ≤ 1000000 / (n : ℚ) := by positivity
  rw [py_int_nonneg hq]
  rw [show ((1000000 : ℚ)) = ((1000000 : ℕ) : ℚ) from by norm_num]
  rw [Rat.floor_natCast_div_natCast]
  exact (Int.ofNat_div _ _).symm

/-- **C5 (amended).** `encode_force_start_payload` produces exactly 5 bytes
whenever it succeeds; the device selector map is `white ↦ 0`, `blue ↦ 1`,
`both ↦ 2`, case-insensitively, and every other string fails before any
byte is produced; and for a positive integer rate `n` the period field is
the *truncated* quotient `1000000 / n` (not the rounded one) encoded as a
little-endian u32. -/
theorem encode_force_start_payload_spec :
    (∀ (rate : ℚ) (dev : List Char) (out : List Nat),
      encode_force_start_payload rate dev = some out → out.length = 5) ∧
    (∀ (rate : ℚ) (dev : List Char), device_selector dev = none →
      encode_force_start_payload rate dev = none) ∧
    (∀ n : ℕ, 0 < n → ∀ (dev : List Char) (sel : Nat),
      device_selector dev = some sel →
      encode_force_start_payload (n : ℚ) dev = some (u32le (1000000 / n) ++ [sel])) ∧
    device_selector "white".data = some 0 ∧
    device_selector "Blue".data = some 1 ∧
    device_selector "BOTH".data = some 2 ∧
    device_selector "green".data = none := by
  refine ⟨?_, ?_, ?_, by decide, by decide, by decide, by decide⟩
  · intro rate dev out h
    cases hsel : device_selector dev with
    | none =>
        rw [encode_force_start_payload_none rate dev hsel] at h
        exact absurd h (by simp)
    | some sel =>
        rw [encode_force_start_payload_some rate dev sel hsel] at h
        by_cases hrange : py_int (1000000 / rate) < 0 ∨
            4294967296 ≤ py_int (1000000 / rate)
        · rw [if_pos hrange] at h
          exact absurd h (by simp)
        · rw [if_neg hrange] at h
          have : u32le (py_int (1000000 / rate)).toNat ++ [sel] = out :=
            Option.some.inj h
          rw [← this]
          simp [u32le]
  · intro rate dev hsel
    exact encode_force_start_payload_none rate dev hsel
  · intro n hn dev sel hsel
    rw [encode_force_start_payload_some _ dev sel hsel]
    rw [py_int_period n hn]
    have hle : 1000000 / n ≤ 1000000 := Nat.div_le_self _ _
    generalize hgen : (1000000 / n : ℕ) = m at hle ⊢
    rw [if_neg (by omega)]
    simp only [Int.toNat_natCast]

/-- Witness for C5 (amended): rate 100 with `white`, rate 50 with `both`,
and the unknown selector `green`. -/
theorem encode_force_start_payload_spec_witness :
    encode_force_start_payload ((100 : ℕ) : ℚ) "white".data =
      some (u32le (1000000 / 100) ++ [0]) ∧
    encode_force_start_payload ((50 : ℕ) : ℚ) "both".data =
      some (u32le (1000000 / 50) ++ [2]) ∧
    encode_force_start_payload ((7 : ℕ) : ℚ) "green".data = none := by
  have h := encode_force_start_payload_spec
  exact ⟨h.2.2.1 100 (by decide) "white".data 0 (by decide),
         h.2.2.1 50 (by decide) "both".data 2 (by decide),
         h.2.1 ((7 : ℕ) : ℚ) "green".data (by decide)⟩

/-- **C5 (counterexample).** At rate 6 Hz the code truncates
`1000000 / 6 = 166666.66…` to `166666`, while the claimed `round` gives
`166667`: the period field is not `round(1_000_000 / rate)`. -/
theorem encode_force_start_payload_truncates :
    encode_force_start_payload ((6 : ℕ) : ℚ) "white".data =
      some (u32le 166666 ++ [0]) ∧
    round ((1000000 : ℚ) / ((6 : ℕ) : ℚ)) = 166667 ∧
    u32le 166666 ≠ u32le 166667 := by
  refine ⟨?_, ?_, by decide⟩
  · have h := encode_force_start_payload_spec.2.2.1 6 (by decide) "white".data 0 (by decide)
    rw [show (1000000 / 6 : ℕ) = 166666 from by norm_num] at h
    exact h
  · norm_num [round_eq]

/-! ## Responses and ACK/NACK correlation (`apparatusDevice.py`)

`ApparatusResponseM` models `ApparatusResponse`: capture time `t`,
`msg_type`, `seq`, the optional parsed force values, and the optional
per-hole reed snapshot (a Python dict, modelled as an association list read
with `.get(hole, 0)` semantics).

`_wait_for_ack` polls `get_responses()` in a timed loop, scanning the list
for the first ACK/NACK whose `seq` matches, removing it, and returning
`is_ack()`; on timeout it returns `False`.  Real time is abstracted into the
finite sequence of response-list snapshots the loop observes: one `scan` per
poll iteration, and an exhausted snapshot list is the timeout. -/

structure ApparatusResponseM where
  t : ℚ
  msg_type : Nat
  seq : Nat
  whiteForce : Option ℤ
  blueForce : Option ℤ
  reed_holes : Option (List (Nat × Nat))
deriving DecidableEq

/-- One pass of the `for response in responses` loop body of
`_wait_for_ack`: the first response with matching `seq` and ACK/NACK type,
together with the list with that one response removed. -/
def scan_for_ack (expected : Nat) :
    List ApparatusResponseM → Option (ApparatusResponseM × List ApparatusResponseM)
  | [] => none
  | r :: rs =>
      if r.seq = expected ∧ (r.msg_type = MSG_ACK ∨ r.msg_type = MSG_NACK) then
        some (r, rs)
      else
        match scan_for_ack expected rs with
        | some (m, rs2) => some (m, r :: rs2)
        | none => none

/-- `_wait_for_ack` over the snapshots seen by its polling loop: the first
snapshot with a match decides the result (`True` for ACK), and running out
of snapshots is the timeout (`False`). -/
def wait_for_ack (expected : Nat) : List (List ApparatusResponseM) → Bool
  | [] => false
  | snap :: later =>
      match scan_for_ack expected snap with
      | some (m, _) => m.msg_type == MSG_ACK
      | none => wait_for_ack expected later

/-- **C7.** `wait_for_ack` is satisfied only by an ACK/NACK response whose
`seq` equals the expected value: a successful scan returns the first such
response, removes exactly it, and every response before it (in particular
every response with a non-matching `seq`) does not match; with no matching
response in any polled snapshot the wait returns `false` (timeout), and on a
match it returns `true` exactly for an ACK. -/
theorem wait_for_ack_spec :
    (∀ (expected : Nat) (rs : List ApparatusResponseM) m rs2,
      scan_for_ack expected rs = some (m, rs2) →
      m.seq = expected ∧ (m.msg_type = MSG_ACK ∨ m.msg_type = MSG_NACK) ∧
      ∃ pre post, rs = pre ++ m :: post ∧ rs2 = pre ++ post ∧
        ∀ q ∈ pre, ¬ (q.seq = expected ∧ (q.msg_type = MSG_ACK ∨ q.msg_type = MSG_NACK))) ∧
    (∀ (expected : Nat) (rs : List ApparatusResponseM),
      (∀ r ∈ rs, ¬ (r.seq = expected ∧ (r.msg_type = MSG_ACK ∨ r.msg_type = MSG_NACK))) →
      scan_for_ack expected rs = none) ∧
    (∀ (expected : Nat) (snap : List ApparatusResponseM) later m rs2,
      scan_for_ack expected snap = some (m, rs2) →
      wait_for_ack expected (snap :: later) = (m.msg_type == MSG_ACK)) ∧
    (∀ (expected : Nat) (snaps : List (List ApparatusResponseM)),
      (∀ snap ∈ snaps, ∀ r ∈ snap,
        ¬ (r.seq = expected ∧ (r.msg_type = MSG_ACK ∨ r.msg_type = MSG_NACK))) →
      wait_for_ack expected snaps = false) := by
  have hscan_none : ∀ (expected : Nat) (rs : List ApparatusResponseM),
      (∀ r ∈ rs, ¬ (r.seq = expected ∧ (r.msg_type = MSG_ACK ∨ r.msg_type = MSG_NACK))) →
      scan_for_ack expected rs = none := by
    intro expected rs
    induction rs with
    | nil => intro _; rfl
    | cons r rs ih =>
        intro h
        rw [scan_for_ack, if_neg (h r (by simp))]
        rw [ih (fun q hq => h q (by simp [hq]))]
  refine ⟨?_, hscan_none, ?_, ?_⟩
  · intro expected rs
    induction rs with
    | nil => intro m rs2 h; exact absurd h (by simp [scan_for_ack])
    | cons r rs ih =>
        intro m rs2 h
        rw [scan_for_ack] at h
        by_cases hr : r.seq = expected ∧ (r.msg_type = MSG_ACK ∨ r.msg_type = MSG_NACK)
        · rw [if_pos hr] at h
          have hm : m = r := congrArg Prod.fst (Option.some.inj h).symm
          have hrs : rs2 = rs := congrArg Prod.snd (Option.some.inj h).symm
          exact ⟨by rw [hm]; exact hr.1, by rw [hm]; exact hr.2, [], rs,
            by simp [hm], by simp [hrs], by simp⟩
        · rw [if_neg hr] at h
          cases hrec : scan_for_ack expected rs with
          | none => rw [hrec] at h; exact absurd h (by simp)
          | some p =>
              obtain ⟨m2, rs3⟩ := p
              rw [hrec] at h
              obtain ⟨rfl, rfl⟩ : m = m2 ∧ rs2 = r :: rs3 := by
                have := Option.some.inj h
                exact ⟨congrArg Prod.fst this.symm, congrArg Prod.snd this.symm⟩
              obtain ⟨h1, h2, pre, post, hpre1, hpre2, hpre3⟩ := ih m rs3 hrec
              exact ⟨h1, h2, r :: pre, post, by simp [hpre1], by simp [hpre2],
                by
                  intro q hq
                  rcases List.mem_cons.mp hq with hq | hq
                  · subst hq; exact hr
                  · exact hpre3 q hq⟩
  · intro expected snap later m rs2 h
    rw [wait_for_ack, h]
  · intro expected snaps
    induction snaps with
    | nil => intro _; rfl
    | cons snap later ih =>
        intro h
        rw [wait_for_ack, hscan_none expected snap (h snap (by simp))]
        exact ih (fun s hs r hr => h s (by simp [hs]) r hr)

/-- Witness for C7: a NACK with the wrong `seq` does not satisfy the wait;
a matching ACK behind it does; an unmatched wait times out to `false`. -/
theorem wait_for_ack_spec_witness :
    scan_for_ack 5 [⟨0, MSG_NACK, 3, none, none, none⟩] = none ∧
    wait_for_ack 2 [[⟨0, MSG_NACK, 3, none, none, none⟩, ⟨0, MSG_ACK, 2, none, none, none⟩]] =
      ((⟨0, MSG_ACK, 2, none, none, none⟩ : ApparatusResponseM).msg_type == MSG_ACK) ∧
    wait_for_ack 7 [[⟨0, MSG_ACK, 3, none, none, none⟩]] = false := by
  refine ⟨?_, ?_, ?_⟩
  · exact wait_for_ack_spec.2.1 5 [⟨0, MSG_NACK, 3, none, none, none⟩] (by decide)
  · exact wait_for_ack_spec.2.2.1 2 [⟨0, MSG_NACK, 3, none, none, none⟩,
      ⟨0, MSG_ACK, 2, none, none, none⟩] [] ⟨0, MSG_ACK, 2, none, none, none⟩
      [⟨0, MSG_NACK, 3, none, none, none⟩] rfl
  · exact wait_for_ack_spec.2.2.2 7 [[⟨0, MSG_ACK, 3, none, none, none⟩]] (by decide)

/-! ## Force measurement engine (`apparatus.py`)

`Apparatus` force-measurement state.  `status` models the psychopy
constants `NOT_STARTED` / `STARTED` / `FINISHED`.  The device is reduced to
its response list (`getResponses()`), passed explicitly; the blocking
start/stop commands are reduced to their ACK outcome, passed as a `Bool`. -/

inductive MeasureStatus where
  | notStarted
  | started
  | finished
deriving DecidableEq

structure ForceState where
  times : List ℚ
  responses : List ApparatusResponseM
  whiteForceValues : List ℤ
  blueForceValues : List ℤ
  whiteForceTimestamps : List ℚ
  blueForceTimestamps : List ℚ
  whiteForce : ℤ
  blueForce : ℤ
  maxWhiteForce : ℤ
  maxBlueForce : ℤ
  force_measuring : Bool
  force_start_response_count : Nat
  status : MeasureStatus
deriving DecidableEq

/-- The body of the `for response in new_responses` loop of
`_collectForceResponses`. -/
def processForceResponse (s : ForceState) (r : ApparatusResponseM) : ForceState :=
  if r.msg_type = DATA_FORCE then
    let s1 := { s with times := s.times ++ [r.t], responses := s.responses ++ [r] }
    let s2 :=
      match r.whiteForce with
      | some w =>
          let sw := { s1 with whiteForce := w,
                              whiteForceValues := s1.whiteForceValues ++ [w],
                              whiteForceTimestamps := s1.whiteForceTimestamps ++ [r.t] }
          if sw.maxWhiteForce < w then { sw with maxWhiteForce := w } else sw
      | none => s1
    match r.blueForce with
    | some b =>
        let sb := { s2 with blueForce := b,
                            blueForceValues := s2.blueForceValues ++ [b],
                            blueForceTimestamps := s2.blueForceTimestamps ++ [r.t] }
        if sb.maxBlueForce < b then { sb with maxBlueForce := b } else sb
    | none => s2
  else s

/-- `_collectForceResponses` (the body of `updateForceMeasurement`): process
the device responses past the read cursor, then advance the cursor to the
device list length. -/
def collectForceResponses (dev : List ApparatusResponseM) (s : ForceState) : ForceState :=
  if s.force_measuring = false then s
  else
    let s1 := (dev.drop s.force_start_response_count).foldl processForceResponse s
    { s1 with force_start_response_count := dev.length }

/-- `startForceMeasurement`: clear all series and maxima, clear the device
responses (cursor 0), send force-start; the measuring flag and status change
only when the start ACK succeeds, and the ACK outcome is returned. -/
def startForceMeasurement (ack : Bool) (s : ForceState) : Bool × ForceState :=
  let s1 := { s with times := [], responses := [],
                     whiteForceValues := [], blueForceValues := [],
                     whiteForceTimestamps := [], blueForceTimestamps := [],
                     whiteForce := 0, blueForce := 0,
                     maxWhiteForce := 0, maxBlueForce := 0,
                     force_start_response_count := 0 }
  if ack then (true, { s1 with force_measuring := true, status := .started })
  else (false, s1)

/-- `stopForceMeasurement`: returns `True` immediately when not measuring;
otherwise drains buffered responses with one final collect, sends
force-stop, and clears the measuring flag only when the stop ACK
succeeds. -/
def stopForceMeasurement (dev : List ApparatusResponseM) (ack : Bool) (s : ForceState) :
    Bool × ForceState :=
  if s.force_measuring = false then (true, s)
  else
    let s1 := collectForceResponses dev s
    if ack then (true, { s1 with force_measuring := false, status := .finished })
    else (false, s1)

theorem processForceResponse_measuring (s : ForceState) (r : ApparatusResponseM) :
    (processForceResponse s r).force_measuring = s.force_measuring := by
  unfold processForceResponse
  dsimp only
  repeat' split
  all_goals rfl

theorem foldl_processForce_measuring (l : List ApparatusResponseM) :
    ∀ s : ForceState, (l.foldl processForceResponse s).force_measuring = s.force_measuring := by
  induction l with
  | nil => intro s; rfl
  | cons r rs ih =>
      intro s
      rw [List.foldl_cons, ih, processForceResponse_measuring]

theorem collectForceResponses_idem (dev : List ApparatusResponseM) (s : ForceState) :
    collectForceResponses dev (collectForceResponses dev s) = collectForceResponses dev s := by
  by_cases hm : s.force_measuring = false
  · have h0 : collectForceResponses dev s = s := by
      rw [collectForceResponses, if_pos hm]
    rw [h0]
    exact h0
  · have h1 : (collectForceResponses dev s).force_measuring = s.force_measuring := by
      rw [collectForceResponses, if_neg hm]
      exact foldl_processForce_measuring _ s
    have hcur : (collectForceResponses dev s).force_start_response_count = dev.length := by
      rw [collectForceResponses, if_neg hm]
    conv_lhs => rw [collectForceResponses]
    rw [if_neg (by rw [h1]; exact hm), hcur, List.drop_length, List.foldl_nil, ← hcur]

/-- The freshly constructed engine state (`Apparatus.__init__`). -/
def forceIdle0 : ForceState :=
  { times := [], responses := [], whiteForceValues := [], blueForceValues := [],
    whiteForceTimestamps := [], blueForceTimestamps := [], whiteForce := 0, blueForce := 0,
    maxWhiteForce := 0, maxBlueForce := 0, force_measuring := false,
    force_start_response_count := 0, status := .notStarted }

/-- A state in the Measuring phase: a successful start from the fresh state. -/
def forceStarted0 : ForceState := (startForceMeasurement true forceIdle0).2

/-- **C4 (counterexample).** With the engine Measuring, a stop whose ACK
fails (NACK or timeout) leaves the measuring flag `true`: the engine does
*not* transition to Idle regardless of the stop-ACK outcome. -/
theorem stopForceMeasurement_stays_measuring :
    (stopForceMeasurement [] false forceStarted0).2.force_measuring = true ∧
    (stopForceMeasurement [] false forceStarted0).1 = false := by
  decide

/-- **C4 (amended).** With the engine Measuring, `stopForceMeasurement`
drains the buffered samples with one final collect, reports the stop-ACK
outcome as its return value, and transitions to Idle (measuring flag
`false`, status FINISHED) exactly when that ACK succeeds; on NACK or
timeout the engine remains Measuring. -/
theorem stopForceMeasurement_spec (dev : List ApparatusResponseM) (ack : Bool)
    (s : ForceState) (hm : s.force_measuring = true) :
    (stopForceMeasurement dev ack s).1 = ack ∧
    (stopForceMeasurement dev ack s).2.force_measuring = !ack ∧
    (stopForceMeasurement dev ack s).2.times = (collectForceResponses dev s).times ∧
    (stopForceMeasurement dev ack s).2.responses = (collectForceResponses dev s).responses ∧
    (stopForceMeasurement dev ack s).2.maxWhiteForce =
      (collectForceResponses dev s).maxWhiteForce ∧
    (stopForceMeasurement dev ack s).2.maxBlueForce =
      (collectForceResponses dev s).maxBlueForce ∧
    (stopForceMeasurement dev ack s).2.status =
      (if ack then MeasureStatus.finished else (collectForceResponses dev s).status) := by
  have hnm : ¬ s.force_measuring = false := by simp [hm]
  rw [stopForceMeasurement, if_neg hnm]
  have h1 : (collectForceResponses dev s).force_measuring = true := by
    rw [collectForceResponses, if_neg hnm]
    rw [foldl_processForce_measuring _ s]
    exact hm
  cases ack with
  | true => simp
  | false => simp [h1]

/-- Witness for C4 at a concrete Measuring state, for both ACK outcomes. -/
theorem stopForceMeasurement_spec_witness :
    (stopForceMeasurement [] true forceStarted0).1 = true ∧
    (stopForceMeasurement [] true forceStarted0).2.force_measuring = !true ∧
    (stopForceMeasurement [] false forceStarted0).2.force_measuring = !false := by
  have ht := stopForceMeasurement_spec [] true forceStarted0 (by decide)
  have hf := stopForceMeasurement_spec [] false forceStarted0 (by decide)
  exact ⟨ht.1, ht.2.1, hf.2.1⟩

theorem processForceResponse_maxWhite_mono (s : ForceState) (r : ApparatusResponseM) :
    s.maxWhiteForce ≤ (processForceResponse s r).maxWhiteForce := by
  by_cases hmt : r.msg_type = DATA_FORCE
  · rcases hw : r.whiteForce with _ | w <;> rcases hb : r.blueForce with _ | b <;>
      simp only [processForceResponse, hmt, hw, hb, if_pos] <;>
      repeat' split
    all_goals try dsimp only at *
    all_goals omega
  · simp [processForceResponse, hmt]

theorem processForceResponse_maxBlue_mono (s : ForceState) (r : ApparatusResponseM) :
    s.maxBlueForce ≤ (processForceResponse s r).maxBlueForce := by
  by_cases hmt : r.msg_type = DATA_FORCE
  · rcases hw : r.whiteForce with _ | w <;> rcases hb : r.blueForce with _ | b <;>
      simp only [processForceResponse, hmt, hw, hb, if_pos] <;>
      repeat' split
    all_goals try dsimp only at *
    all_goals omega
  · simp [processForceResponse, hmt]

theorem foldl_processForce_maxWhite_mono (l : List ApparatusResponseM) :
    ∀ s : ForceState, s.maxWhiteForce ≤ (l.foldl processForceResponse s).maxWhiteForce := by
  induction l with
  | nil => intro s; exact le_refl _
  | cons r rs ih =>
      intro s
      rw [List.foldl_cons]
      exact le_trans (processForceResponse_maxWhite_mono s r) (ih _)

theorem foldl_processForce_maxBlue_mono (l : List ApparatusResponseM) :
    ∀ s : ForceState, s.maxBlueForce ≤ (l.foldl processForceResponse s).maxBlueForce := by
  induction l with
  | nil => intro s; exact le_refl _
  | cons r rs ih =>
      intro s
      rw [List.foldl_cons]
      exact le_trans (processForceResponse_maxBlue_mono s r) (ih _)

theorem collectForce_maxWhite_mono (dev : List ApparatusResponseM) (s : ForceState) :
    s.maxWhiteForce ≤ (collectForceResponses dev s).maxWhiteForce := by
  rw [collectForceResponses]
  by_cases hm : s.force_measuring = false
  · rw [if_pos hm]
  · rw [if_neg hm]
    exact foldl_processForce_maxWhite_mono _ s

theorem collectForce_maxBlue_mono (dev : List ApparatusResponseM) (s : ForceState) :
    s.maxBlueForce ≤ (collectForceResponses dev s).maxBlueForce := by
  rw [collectForceResponses]
  by_cases hm : s.force_measuring = false
  · rw [if_pos hm]
  · rw [if_neg hm]
    exact foldl_processForce_maxBlue_mono _ s

/-- **C10.** `startForceMeasurement` resets both maxima to 0; each collect
only ever raises a maximum (a sample replaces it only when strictly
greater), so both maxima stay non-negative and non-decreasing throughout a
session; in particular a session whose white samples are all negative
(here −5 N then −3 N) ends with `maxWhiteForce = 0`, not the largest
sample. -/
theorem maxForce_nonneg_monotone :
    (∀ (ack : Bool) (s : ForceState),
      (startForceMeasurement ack s).2.maxWhiteForce = 0 ∧
      (startForceMeasurement ack s).2.maxBlueForce = 0) ∧
    (∀ (dev : List ApparatusResponseM) (s : ForceState),
      s.maxWhiteForce ≤ (collectForceResponses dev s).maxWhiteForce ∧
      s.maxBlueForce ≤ (collectForceResponses dev s).maxBlueForce) ∧
    (∀ (dev : List ApparatusResponseM) (s : ForceState),
      0 ≤ s.maxWhiteForce → 0 ≤ (collectForceResponses dev s).maxWhiteForce) ∧
    (∀ (dev : List ApparatusResponseM) (s : ForceState),
      0 ≤ s.maxBlueForce → 0 ≤ (collectForceResponses dev s).maxBlueForce) ∧
    (collectForceResponses
      [⟨1, DATA_FORCE, 0, some (-5), none, none⟩, ⟨2, DATA_FORCE, 0, some (-3), none, none⟩]
      forceStarted0).maxWhiteForce = 0 := by
  refine ⟨?_, ?_, ?_, ?_, by decide⟩
  · intro ack s
    cases ack <;> exact ⟨rfl, rfl⟩
  · intro dev s
    exact ⟨collectForce_maxWhite_mono dev s, collectForce_maxBlue_mono dev s⟩
  · intro dev s h
    exact le_trans h (collectForce_maxWhite_mono dev s)
  · intro dev s h
    exact le_trans h (collectForce_maxBlue_mono dev s)

/-- Witness for C10 instantiating the monotonicity parts at a concrete
state. -/
theorem maxForce_nonneg_monotone_witness :
    (startForceMeasurement true forceIdle0).2.maxWhiteForce = 0 ∧
    0 ≤ (collectForceResponses [] forceStarted0).maxWhiteForce ∧
    0 ≤ (collectForceResponses [] forceStarted0).maxBlueForce := by
  have h := maxForce_nonneg_monotone
  exact ⟨(h.1 true forceIdle0).1,
         h.2.2.1 [] forceStarted0 (by decide),
         h.2.2.2.1 [] forceStarted0 (by decide)⟩

/-! ## Reed measurement engine (`apparatus.py`)

Python dicts keyed by hole index are modelled as association lists:
`dictGet` is `d.get(k, default)` (also used for plain `d[k]` indexing, whose
keys the engine initialises at start), `dictSet` is `d[k] = v` (update in
place, insert at the end when absent). -/

def dictGet {α : Type} : List (Nat × α) → Nat → α → α
  | [], _, dflt => dflt
  | e :: es, k, dflt => if e.1 = k then e.2 else dictGet es k dflt

def dictSet {α : Type} : List (Nat × α) → Nat → α → List (Nat × α)
  | [], k, v => [(k, v)]
  | e :: es, k, v => if e.1 = k then (k, v) :: es else e :: dictSet es k v

theorem dictGet_dictSet_self {α : Type} (d : List (Nat × α)) (k : Nat) (v dflt : α) :
    dictGet (dictSet d k v) k dflt = v := by
  induction d with
  | nil => simp [dictGet, dictSet]
  | cons e es ih =>
      by_cases h : e.1 = k
      · simp [dictGet, dictSet, h]
      · simp [dictGet, dictSet, h, ih]

theorem dictGet_dictSet_ne {α : Type} (d : List (Nat × α)) {k k2 : Nat} (h : k ≠ k2)
    (v dflt : α) : dictGet (dictSet d k v) k2 dflt = dictGet d k2 dflt := by
  induction d with
  | nil => simp [dictGet, dictSet, h]
  | cons e es ih =>
      by_cases he : e.1 = k
      · simp [dictGet, dictSet, he, h, ih]
      · simp [dictGet, dictSet, he, h, ih]

structure ReedEngineState where
  reedTimes : List ℚ
  reedHoles : List Nat
  reedActions : List Nat
  reedSummary : List (Nat × Nat × Nat × ℚ)
  reed_measuring : Bool
  reed_monitored_holes : List Nat
  reed_start_response_count : Nat
  reed_last_states : List (Nat × Nat)
  reed_insertion_counts : List (Nat × Nat)
  reed_removal_counts : List (Nat × Nat)
  reed_active_durations : List (Nat × ℚ)
  reed_last_insert_time : List (Nat × Option ℚ)
  status : MeasureStatus
deriving DecidableEq

/-- The body of the `for hole in self._reed_monitored_holes` loop of
`_collectReedResponses`: edge detection for one monitored hole against one
reed-data snapshot `rh` (read with `.get(hole, 0)`). -/
def reedProcessHole (timestamp : ℚ) (rh : List (Nat × Nat)) (s : ReedEngineState)
    (hole : Nat) : ReedEngineState :=
  let new_state := dictGet rh hole 0
  let old_state := dictGet s.reed_last_states hole 0
  if new_state ≠ old_state then
    let step :=
      if new_state = 1 then
        (1, { s with
          reed_insertion_counts :=
            dictSet s.reed_insertion_counts hole (dictGet s.reed_insertion_counts hole 0 + 1),
          reed_last_insert_time := dictSet s.reed_last_insert_time hole (some timestamp) })
      else
        let sr := { s with
          reed_removal_counts :=
            dictSet s.reed_removal_counts hole (dictGet s.reed_removal_counts hole 0 + 1) }
        match dictGet s.reed_last_insert_time hole none with
        | some t0 =>
            (0, { sr with
              reed_active_durations := dictSet sr.reed_active_durations hole
                (dictGet sr.reed_active_durations hole 0 + (timestamp - t0)),
              reed_last_insert_time := dictSet sr.reed_last_insert_time hole none })
        | none => (0, sr)
    { step.2 with
      reedTimes := step.2.reedTimes ++ [timestamp],
      reedHoles := step.2.reedHoles ++ [hole],
      reedActions := step.2.reedActions ++ [step.1],
      reed_last_states := dictSet step.2.reed_last_states hole new_state }
  else s

/-- The body of the `for response in new_responses` loop of
`_collectReedResponses`: skip non-reed responses and responses without a
snapshot, else run edge detection over all monitored holes. -/
def reedProcessResponse (s : ReedEngineState) (r : ApparatusResponseM) : ReedEngineState :=
  if r.msg_type ≠ DATA_REED then s
  else
    match r.reed_holes with
    | none => s
    | some rh => s.reed_monitored_holes.foldl (reedProcessHole r.t rh) s

/-- `_collectReedResponses` (the body of `updateReedMeasurement`). -/
def collectReedResponses (dev : List ApparatusResponseM) (s : ReedEngineState) :
    ReedEngineState :=
  if s.reed_measuring = false then s
  else
    let s1 := (dev.drop s.reed_start_response_count).foldl reedProcessResponse s
    { s1 with reed_start_response_count := dev.length }

/-- One hole of the finalisation loop of `stopReedMeasurement`: a hole still
inserted accrues duration up to the stop wall-clock time. -/
def reedFinalizeHole (stopTime : ℚ) (s : ReedEngineState) (hole : Nat) : ReedEngineState :=
  if dictGet s.reed_last_states hole 0 = 1 then
    match dictGet s.reed_last_insert_time hole none with
    | some t0 =>
        { s with reed_active_durations :=
                   dictSet s.reed_active_durations hole
                     (dictGet s.reed_active_durations hole 0 + (stopTime - t0)) }
    | none => s
  else s

/-- The summary built by `stopReedMeasurement`: per active hole (nonzero
insertions or removals), `(hole, insertions, removals, duration)`, sorted by
hole index. -/
def reedBuildSummary (s : ReedEngineState) : List (Nat × Nat × Nat × ℚ) :=
  (s.reed_monitored_holes.mergeSort (· ≤ ·)).filterMap (fun hole =>
    let ins := dictGet s.reed_insertion_counts hole 0
    let rem := dictGet s.reed_removal_counts hole 0
    if 0 < ins ∨ 0 < rem then some (hole, ins, rem, dictGet s.reed_active_durations hole 0)
    else none)

/-- `stopReedMeasurement`: drain pending updates, close intervals still open
at the stop wall-clock time, build the summary, send reed-stop, and leave
Measuring only when the stop ACK succeeds. -/
def stopReedMeasurement (dev : List ApparatusResponseM) (stopTime : ℚ) (ack : Bool)
    (s : ReedEngineState) : Bool × ReedEngineState :=
  if s.reed_measuring = false then (true, s)
  else
    let s1 := collectReedResponses dev s
    let s2 := s1.reed_monitored_holes.foldl (reedFinalizeHole stopTime) s1
    let s3 := { s2 with reedSummary := reedBuildSummary s2 }
    if ack then (true, { s3 with reed_measuring := false, status := .finished })
    else (false, s3)

theorem reedProcessHole_measuring (t : ℚ) (rh : List (Nat × Nat)) (s : ReedEngineState)
    (hole : Nat) : (reedProcessHole t rh s hole).reed_measuring = s.reed_measuring := by
  unfold reedProcessHole
  dsimp only
  repeat' split
  all_goals rfl

theorem reedProcessResponse_measuring (s : ReedEngineState) (r : ApparatusResponseM) :
    (reedProcessResponse s r).reed_measuring = s.reed_measuring := by
  unfold reedProcessResponse
  repeat' split
  · rfl
  · rfl
  · rename_i rh heq
    generalize s.reed_monitored_holes = holes
    induction holes generalizing s with
    | nil => rfl
    | cons h hs ih =>
        rw [List.foldl_cons]
        rw [ih (reedProcessHole r.t rh s h)]
        exact reedProcessHole_measuring _ _ _ _

theorem foldl_reedProcess_measuring (l : List ApparatusResponseM) :
    ∀ s : ReedEngineState, (l.foldl reedProcessResponse s).reed_measuring = s.reed_measuring := by
  induction l with
  | nil => intro s; rfl
  | cons r rs ih =>
      intro s
      rw [List.foldl_cons, ih, reedProcessResponse_measuring]

theorem collectReedResponses_idem (dev : List ApparatusResponseM) (s : ReedEngineState) :
    collectReedResponses dev (collectReedResponses dev s) = collectReedResponses dev s := by
  by_cases hm : s.reed_measuring = false
  · have h0 : collectReedResponses dev s = s := by
      rw [collectReedResponses, if_pos hm]
    rw [h0]
    exact h0
  · have h1 : (collectReedResponses dev s).reed_measuring = s.reed_measuring := by
      rw [collectReedResponses, if_neg hm]
      exact foldl_reedProcess_measuring _ s
    have hcur : (collectReedResponses dev s).reed_start_response_count = dev.length := by
      rw [collectReedResponses, if_neg hm]
    conv_lhs => rw [collectReedResponses]
    rw [if_neg (by rw [h1]; exact hm), hcur, List.drop_length, List.foldl_nil, ← hcur]

/-- **C9.** A second `update()` with no new responses appended is a no-op
for both engines: all aggregate state — series, current and maximum values,
per-hole counters, durations, remembered states, and the read cursor — is
unchanged (the states are equal as a whole). -/
theorem update_twice_idempotent :
    (∀ (dev : List ApparatusResponseM) (s : ForceState),
      collectForceResponses dev (collectForceResponses dev s) =
        collectForceResponses dev s) ∧
    (∀ (dev : List ApparatusResponseM) (s : ReedEngineState),
      collectReedResponses dev (collectReedResponses dev s) =
        collectReedResponses dev s) :=
  ⟨collectForceResponses_idem, collectReedResponses_idem⟩

theorem reedProcessHole_insert (t : ℚ) (rh : List (Nat × Nat)) (s : ReedEngineState)
    (hole : Nat) (hne : dictGet rh hole 0 ≠ dictGet s.reed_last_states hole 0)
    (h1 : dictGet rh hole 0 = 1) :
    reedProcessHole t rh s hole = { s with
      reed_insertion_counts :=
        dictSet s.reed_insertion_counts hole (dictGet s.reed_insertion_counts hole 0 + 1),
      reed_last_insert_time := dictSet s.reed_last_insert_time hole (some t),
      reedTimes := s.reedTimes ++ [t],
      reedHoles := s.reedHoles ++ [hole],
      reedActions := s.reedActions ++ [1],
      reed_last_states := dictSet s.reed_last_states hole (dictGet rh hole 0) } := by
  unfold reedProcessHole
  dsimp only
  rw [if_pos hne, if_pos h1]

theorem reedProcessHole_remove_open (t : ℚ) (rh : List (Nat × Nat)) (s : ReedEngineState)
    (hole : Nat) (t0 : ℚ)
    (hne : dictGet rh hole 0 ≠ dictGet s.reed_last_states hole 0)
    (h0 : ¬ dictGet rh hole 0 = 1)
    (hlit : dictGet s.reed_last_insert_time hole none = some t0) :
    reedProcessHole t rh s hole = { s with
      reed_removal_counts :=
        dictSet s.reed_removal_counts hole (dictGet s.reed_removal_counts hole 0 + 1),
      reed_active_durations :=
        dictSet s.reed_active_durations hole (dictGet s.reed_active_durations hole 0 + (t - t0)),
      reed_last_insert_time := dictSet s.reed_last_insert_time hole none,
      reedTimes := s.reedTimes ++ [t],
      reedHoles := s.reedHoles ++ [hole],
      reedActions := s.reedActions ++ [0],
      reed_last_states := dictSet s.reed_last_states hole (dictGet rh hole 0) } := by
  unfold reedProcessHole
  dsimp only
  rw [if_pos hne, if_neg h0, hlit]

theorem reedProcessHole_remove_closed (t : ℚ) (rh : List (Nat × Nat)) (s : ReedEngineState)
    (hole : Nat)
    (hne : dictGet rh hole 0 ≠ dictGet s.reed_last_states hole 0)
    (h0 : ¬ dictGet rh hole 0 = 1)
    (hlit : dictGet s.reed_last_insert_time hole none = none) :
    reedProcessHole t rh s hole = { s with
      reed_removal_counts :=
        dictSet s.reed_removal_counts hole (dictGet s.reed_removal_counts hole 0 + 1),
      reedTimes := s.reedTimes ++ [t],
      reedHoles := s.reedHoles ++ [hole],
      reedActions := s.reedActions ++ [0],
      reed_last_states := dictSet s.reed_last_states hole (dictGet rh hole 0) } := by
  unfold reedProcessHole
  dsimp only
  rw [if_pos hne, if_neg h0, hlit]

theorem reedProcessHole_noop (t : ℚ) (rh : List (Nat × Nat)) (s : ReedEngineState)
    (hole : Nat) (heq : dictGet rh hole 0 = dictGet s.reed_last_states hole 0) :
    reedProcessHole t rh s hole = s := by
  unfold reedProcessHole
  dsimp only
  rw [if_neg (by simpa using heq)]

/-- A reed session just started on hole 4 (`startReedMeasurement` state with
`holes = [4]`). -/
def reedStart4 : ReedEngineState :=
  { reedTimes := [], reedHoles := [], reedActions := [], reedSummary := [],
    reed_measuring := true, reed_monitored_holes := [4],
    reed_start_response_count := 0,
    reed_last_states := [(4, 0)], reed_insertion_counts := [(4, 0)],
    reed_removal_counts := [(4, 0)], reed_active_durations := [(4, 0)],
    reed_last_insert_time := [(4, none)], status := .started }

/-- A reed-data response whose snapshot reports hole 4 in state `st`. -/
def reedResp4 (t : ℚ) (st : Nat) : ApparatusResponseM :=
  ⟨t, DATA_REED, 0, none, none, some [(4, st)]⟩

/-- **C3.** While a reed measurement is active, each snapshot whose state
for a monitored hole differs from the remembered state produces exactly one
event: a transition to 1 increments the hole's insertion counter, opens an
interval at the event timestamp and appends a `(t, hole, 1)` event; a
transition to 0 increments the removal counter, and with an open interval
adds `t − open_start` to the cumulative duration and closes it, appending a
`(t, hole, 0)` event; an unchanged state produces nothing.  For hole 4
monitored, the sequence `0→1 (t=1) →0 (t=3/2) →1 (t=2) →0 (t=11/5)` yields
2 insertions, 2 removals and duration `7/10`; and a hole still inserted at
stop accrues duration up to the stop wall-clock time. -/
theorem reed_engine_spec :
    (∀ (t : ℚ) (rh : List (Nat × Nat)) (s : ReedEngineState) (hole : Nat),
      dictGet rh hole 0 ≠ dictGet s.reed_last_states hole 0 →
      dictGet rh hole 0 = 1 →
      dictGet (reedProcessHole t rh s hole).reed_insertion_counts hole 0 =
        dictGet s.reed_insertion_counts hole 0 + 1 ∧
      dictGet (reedProcessHole t rh s hole).reed_removal_counts hole 0 =
        dictGet s.reed_removal_counts hole 0 ∧
      dictGet (reedProcessHole t rh s hole).reed_last_insert_time hole none = some t ∧
      dictGet (reedProcessHole t rh s hole).reed_active_durations hole 0 =
        dictGet s.reed_active_durations hole 0 ∧
      (reedProcessHole t rh s hole).reedTimes = s.reedTimes ++ [t] ∧
      (reedProcessHole t rh s hole).reedHoles = s.reedHoles ++ [hole] ∧
      (reedProcessHole t rh s hole).reedActions = s.reedActions ++ [1] ∧
      dictGet (reedProcessHole t rh s hole).reed_last_states hole 0 = 1) ∧
    (∀ (t : ℚ) (rh : List (Nat × Nat)) (s : ReedEngineState) (hole : Nat) (t0 : ℚ),
      dictGet rh hole 0 ≠ dictGet s.reed_last_states hole 0 →
      ¬ dictGet rh hole 0 = 1 →
      dictGet s.reed_last_insert_time hole none = some t0 →
      dictGet (reedProcessHole t rh s hole).reed_removal_counts hole 0 =
        dictGet s.reed_removal_counts hole 0 + 1 ∧
      dictGet (reedProcessHole t rh s hole).reed_insertion_counts hole 0 =
        dictGet s.reed_insertion_counts hole 0 ∧
      dictGet (reedProcessHole t rh s hole).reed_active_durations hole 0 =
        dictGet s.reed_active_durations hole 0 + (t - t0) ∧
      dictGet (reedProcessHole t rh s hole).reed_last_insert_time hole none = none ∧
      (reedProcessHole t rh s hole).reedTimes = s.reedTimes ++ [t] ∧
      (reedProcessHole t rh s hole).reedHoles = s.reedHoles ++ [hole] ∧
      (reedProcessHole t rh s hole).reedActions = s.reedActions ++ [0]) ∧
    (∀ (t : ℚ) (rh : List (Nat × Nat)) (s : ReedEngineState) (hole : Nat),
      dictGet rh hole 0 = dictGet s.reed_last_states hole 0 →
      reedProcessHole t rh s hole = s) ∧
    (dictGet (collectReedResponses
        [reedResp4 1 1, reedResp4 (3/2) 0, reedResp4 2 1, reedResp4 (11/5) 0]
        reedStart4).reed_insertion_counts 4 0 = 2 ∧
     dictGet (collectReedResponses
        [reedResp4 1 1, reedResp4 (3/2) 0, reedResp4 2 1, reedResp4 (11/5) 0]
        reedStart4).reed_removal_counts 4 0 = 2 ∧
     dictGet (collectReedResponses
        [reedResp4 1 1, reedResp4 (3/2) 0, reedResp4 2 1, reedResp4 (11/5) 0]
        reedStart4).reed_active_durations 4 0 = 7/10 ∧
     (collectReedResponses
        [reedResp4 1 1, reedResp4 (3/2) 0, reedResp4 2 1, reedResp4 (11/5) 0]
        reedStart4).reedActions = [1, 0, 1, 0] ∧
     (collectReedResponses
        [reedResp4 1 1, reedResp4 (3/2) 0, reedResp4 2 1, reedResp4 (11/5) 0]
        reedStart4).reedTimes = [1, 3/2, 2, 11/5]) ∧
    (∀ (stopT : ℚ) (s : ReedEngineState) (hole : Nat) (t0 : ℚ),
      dictGet s.reed_last_states hole 0 = 1 →
      dictGet s.reed_last_insert_time hole none = some t0 →
      dictGet (reedFinalizeHole stopT s hole).reed_active_durations hole 0 =
        dictGet s.reed_active_durations hole 0 + (stopT - t0)) := by
  refine ⟨?_, ?_, ?_, ?_, ?_⟩
  · intro t rh s hole hne h1
    rw [reedProcessHole_insert t rh s hole hne h1]
    refine ⟨?_, ?_, ?_, ?_, ?_, ?_, ?_, ?_⟩ <;>
      simp [dictGet_dictSet_self, h1]
  · intro t rh s hole t0 hne h0 hlit
    rw [reedProcessHole_remove_open t rh s hole t0 hne h0 hlit]
    refine ⟨?_, ?_, ?_, ?_, ?_, ?_, ?_⟩ <;>
      simp [dictGet_dictSet_self]
  · intro t rh s hole heq
    exact reedProcessHole_noop t rh s hole heq
  · refine ⟨?_, ?_, ?_, ?_, ?_⟩ <;>
      norm_num [collectReedResponses, reedProcessResponse, reedProcessHole,
        dictGet, dictSet, reedStart4, reedResp4, DATA_REED]
  · intro stopT s hole t0 hstate hlit
    unfold reedFinalizeHole
    rw [if_pos hstate, hlit]
    exact dictGet_dictSet_self _ _ _ _

/-- A reed state with hole 4 still inserted (open interval started at 3). -/
def reedStillInserted4 : ReedEngineState :=
  { reedStart4 with reed_last_states := [(4, 1)], reed_last_insert_time := [(4, some 3)] }

/-- Witness for C3: an insertion step, a no-op step, and a stop-time
accrual, all at concrete inputs. -/
theorem reed_engine_spec_witness :
    dictGet (reedProcessHole 5 [(4, 1)] reedStart4 4).reed_insertion_counts 4 0 =
      dictGet reedStart4.reed_insertion_counts 4 0 + 1 ∧
    reedProcessHole 5 [(4, 0)] reedStart4 4 = reedStart4 ∧
    dictGet (reedFinalizeHole 9 reedStillInserted4 4).reed_active_durations 4 0 =
      dictGet reedStillInserted4.reed_active_durations 4 0 + (9 - 3) :=
  ⟨(reed_engine_spec.1 5 [(4, 1)] reedStart4 4 (by decide) (by decide)).1,
   reed_engine_spec.2.2.1 5 [(4, 0)] reedStart4 4 (by decide),
   reed_engine_spec.2.2.2.2 9 reedStillInserted4 4 3 (by rfl) (by rfl)⟩

end Apparatus
